import Mathlib

/-!
Shallow embedding of the GPU resource and device-negotiation layer of a
small Vulkan ray tracer (`src/buffer.rs`, `src/image_utils.rs`,
`src/vulkan_base.rs`, `src/windowed.rs`).

Machine integers (`u32`) are modelled as `Nat` with an explicit `% 2 ^ 32`
wherever the Rust code can wrap; Vulkan calls that can fail are modelled as
`Except` values supplied as part of the input, and the handles a call
creates are tracked explicitly so that resource-leak properties can be
stated.  All definitions follow the Rust source function by function.
-/

namespace VkModel

/-- Size of the `u32` value space. -/
def U32 : Nat := 2 ^ 32

/-- Bitwise NOT on `u32`: for `x < 2 ^ 32`, `(2 ^ 32 - 1) - x` is the
bitwise complement of `x` within 32 bits (subtracting from the all-ones
mask never borrows). -/
def u32not (x : Nat) : Nat := (U32 - 1) - x

/-- Embedding of `aligned_size` (src/buffer.rs:111-113):
`(value + alignment - 1) & !(alignment - 1)` on `u32`.  The additions wrap
modulo `2 ^ 32`; for `alignment ≥ 1` and `value < 2 ^ 32` the `Nat`
subtraction agrees with the wrapping `u32` computation. -/
def aligned_size (value alignment : Nat) : Nat :=
  ((value + alignment - 1) % U32) &&& u32not ((alignment - 1) % U32)

/-- One entry of the `memory_types` array of
`vk::PhysicalDeviceMemoryProperties`: its property-flag bitmask. -/
structure MemoryType where
  property_flags : Nat
deriving DecidableEq

/-- Embedding of `vk::PhysicalDeviceMemoryProperties`: the declared count
and the memory-type table (the Rust side is a fixed 32-entry array of
which only the first `memory_type_count` entries are meaningful). -/
structure PhysicalDeviceMemoryProperties where
  memory_type_count : Nat
  memory_types : List MemoryType
deriving DecidableEq

/-- Loop of `get_memory_type_index` (src/buffer.rs:99-107): iterate `i`
upward while `count` decrements, testing the low bit of the running
`type_bits` (shifted right once per iteration, as the Rust `type_bits >>= 1`
does) and the property-flag superset test; falling out of the loop yields
the Rust function's final `0`. -/
def get_memory_type_index_loop (memory_types : List MemoryType) (properties : Nat) :
    Nat → Nat → Nat → Nat
  | _type_bits, _i, 0 => 0
  | type_bits, i, count + 1 =>
    if type_bits &&& 1 == 1 &&
        ((memory_types.getD i ⟨0⟩).property_flags &&& properties == properties) then
      i
    else
      get_memory_type_index_loop memory_types properties (type_bits >>> 1) (i + 1) count

/-- Embedding of `get_memory_type_index` (src/buffer.rs:94-109). -/
def get_memory_type_index (dmp : PhysicalDeviceMemoryProperties)
    (type_bits properties : Nat) : Nat :=
  get_memory_type_index_loop dmp.memory_types properties type_bits 0 dmp.memory_type_count

/-- Memory type `i` matches the request: bit `i` is set in `type_bits` and
the type's property flags are a superset of the desired `properties`. -/
def memory_type_matches (dmp : PhysicalDeviceMemoryProperties)
    (type_bits properties i : Nat) : Bool :=
  ((type_bits >>> i) &&& 1 == 1) &&
    ((dmp.memory_types.getD i ⟨0⟩).property_flags &&& properties == properties)

/-- Masking with the complement of the low `k` bits clears them: for
`x < 2 ^ n`, `x &&& (2 ^ n - 2 ^ k)` is `x` rounded down to a multiple of
`2 ^ k`. -/
theorem land_comp_two_pow {n k : Nat} (hk : k ≤ n) (x : Nat) (hx : x < 2 ^ n) :
    x &&& (2 ^ n - 2 ^ k) = 2 ^ k * (x / 2 ^ k) := by
  have h1 : 2 ^ n - 2 ^ k = (2 ^ (n - k) - 1) <<< k := by
    rw [Nat.shiftLeft_eq, Nat.sub_mul, one_mul, ← pow_add, Nat.sub_add_cancel hk]
  have h2 : 2 ^ k * (x / 2 ^ k) = (x >>> k) <<< k := by
    rw [Nat.shiftRight_eq_div_pow, Nat.shiftLeft_eq, Nat.mul_comm]
  rw [h1, h2]
  apply Nat.eq_of_testBit_eq
  intro i
  rw [Nat.testBit_land, Nat.testBit_shiftLeft, Nat.testBit_shiftLeft,
    Nat.testBit_two_pow_sub_one, Nat.testBit_shiftRight]
  by_cases hik : k ≤ i
  · have hge : decide (i ≥ k) = true := by simp [hik]
    rw [hge]
    by_cases hin : i < n
    · have h3 : i - k < n - k := by omega
      have h4 : k + (i - k) = i := by omega
      simp [h3, h4]
    · have hxf : x.testBit i = false :=
        Nat.testBit_lt_two_pow
          (lt_of_lt_of_le hx (Nat.pow_le_pow_right (by norm_num) (by omega)))
      have h3 : ¬ (i - k < n - k) := by omega
      have h4 : k + (i - k) = i := by omega
      simp [h3, h4, hxf]
  · have hge : decide (i ≥ k) = false := by simp [hik]
    rw [hge]
    simp

/-- For a power-of-two alignment `2 ^ k` (`k ≤ 31`, so the alignment is a
`u32`), the mask `!(alignment - 1)` is the complement of the low `k` bits. -/
theorem u32not_pow_two_sub_one {k : Nat} (hk : k ≤ 31) :
    u32not ((2 ^ k - 1) % U32) = U32 - 2 ^ k := by
  have e31 : (2:Nat) ^ 31 = 2147483648 := by norm_num
  have h1 : 2 ^ k ≤ 2 ^ 31 := Nat.pow_le_pow_right (by norm_num) hk
  have hpos : 0 < 2 ^ k := Nat.pos_pow_of_pos k (by norm_num)
  have hU : U32 = 4294967296 := by norm_num [U32]
  have h2 : (2 ^ k - 1) % U32 = 2 ^ k - 1 := Nat.mod_eq_of_lt (by omega)
  rw [h2, u32not]
  omega

/-- The `aligned_size` computation, for a power-of-two alignment, rounds
the (wrapped) value `v + a - 1` down to a multiple of the alignment. -/
theorem aligned_size_pow_two (v : Nat) {k : Nat} (hk : k ≤ 31) :
    aligned_size v (2 ^ k) = 2 ^ k * (((v + 2 ^ k - 1) % U32) / 2 ^ k) := by
  rw [aligned_size, u32not_pow_two_sub_one hk]
  have hU : (0:Nat) < U32 := by norm_num [U32]
  have hx : (v + 2 ^ k - 1) % U32 < U32 := Nat.mod_lt _ hU
  have hx2 : (v + 2 ^ k - 1) % U32 < 2 ^ 32 := by
    have : U32 = 2 ^ 32 := rfl
    omega
  have : U32 - 2 ^ k = 2 ^ 32 - 2 ^ k := rfl
  rw [this]
  exact land_comp_two_pow (by omega) _ hx2

/-- Arithmetic helper: a multiple of `K` strictly below another multiple
`N` of `K` stays below `N` even after adding `K - 1`. -/
theorem multiple_add_lt (K r N : Nat) (hK : 0 < K) (hr : K ∣ r) (hN : K ∣ N)
    (hlt : r < N) : r + K - 1 < N := by
  obtain ⟨s, hs⟩ := hr
  obtain ⟨t, ht⟩ := hN
  have hst : s < t := by
    have := hlt
    rw [hs, ht] at this
    exact lt_of_mul_lt_mul_left this (Nat.zero_le K)
  have h1 : r + K ≤ N := by
    have h2 : K * (s + 1) ≤ K * t := Nat.mul_le_mul_left K hst
    rw [Nat.mul_add, Nat.mul_one] at h2
    rw [hs, ht]
    exact h2
  omega

/-- Arithmetic helper: rounding a multiple of `K` up to a multiple of `K`
is the identity. -/
theorem roundup_of_multiple (K r : Nat) (hK : 0 < K) (hr : K ∣ r) :
    K * ((r + K - 1) / K) = r := by
  obtain ⟨s, hs⟩ := hr
  subst hs
  have h1 : K * s + K - 1 = K * s + (K - 1) := by omega
  rw [h1, Nat.mul_add_div hK, Nat.div_eq_of_lt (by omega), Nat.add_zero]

/-- Arithmetic helper: `K * ((v + K - 1) / K)` is the least multiple of
`K` that is at least `v`. -/
theorem roundup_is_least (K v : Nat) (hK : 0 < K) :
    K ∣ K * ((v + K - 1) / K) ∧ v ≤ K * ((v + K - 1) / K) ∧
      ∀ m, K ∣ m → v ≤ m → K * ((v + K - 1) / K) ≤ m := by
  refine ⟨dvd_mul_right _ _, ?_, ?_⟩
  · have hdm := Nat.div_add_mod (v + K - 1) K
    have hmod : (v + K - 1) % K < K := Nat.mod_lt _ hK
    omega
  · intro m hdm hvm
    obtain ⟨t, ht⟩ := hdm
    have hle : v + K - 1 ≤ K * t + (K - 1) := by omega
    have hdiv : (v + K - 1) / K ≤ (K * t + (K - 1)) / K := Nat.div_le_div_right hle
    rw [Nat.mul_add_div hK, show (K - 1) / K = 0 from Nat.div_eq_of_lt (by omega),
      Nat.add_zero] at hdiv
    rw [ht]
    exact Nat.mul_le_mul_left K hdiv

/-- C4 (amended): for every `u32` value `v` and power-of-two alignment
`a = 2 ^ k`, `aligned_size` is idempotent; and whenever `v + a` does not
overflow `u32`, `aligned_size v a` is the smallest multiple of `a` that is
greater than or equal to `v`.  (On overflow — `v + a > 2 ^ 32` — the wrapped
result is `0`, so the minimality clause needs the no-overflow hypothesis.) -/
theorem aligned_size_idem_and_minimal (v a k : Nat) (_hv : v < U32) (ha : a = 2 ^ k)
    (hk : k ≤ 31) :
    aligned_size (aligned_size v a) a = aligned_size v a ∧
    (v + a ≤ U32 →
      a ∣ aligned_size v a ∧ v ≤ aligned_size v a ∧
        ∀ m, a ∣ m → v ≤ m → aligned_size v a ≤ m) := by
  subst ha
  have hpos : 0 < 2 ^ k := Nat.pos_pow_of_pos k (by norm_num)
  have hU : U32 = 4294967296 := by norm_num [U32]
  have hdvdU : 2 ^ k ∣ U32 := by
    have h32 : U32 = 2 ^ 32 := rfl
    rw [h32]
    exact pow_dvd_pow 2 (by omega)
  constructor
  · -- idempotence: re-rounding the already-rounded value is the identity
    rw [aligned_size_pow_two v hk]
    have hxlt : (v + 2 ^ k - 1) % U32 < U32 := Nat.mod_lt _ (by omega)
    have hrle : 2 ^ k * ((v + 2 ^ k - 1) % U32 / 2 ^ k) ≤ (v + 2 ^ k - 1) % U32 := by
      rw [Nat.mul_comm]
      exact Nat.div_mul_le_self _ _
    have hbound :=
      multiple_add_lt (2 ^ k) (2 ^ k * ((v + 2 ^ k - 1) % U32 / 2 ^ k)) U32 hpos
        (dvd_mul_right _ _) hdvdU (lt_of_le_of_lt hrle hxlt)
    rw [aligned_size_pow_two _ hk, Nat.mod_eq_of_lt hbound]
    exact roundup_of_multiple (2 ^ k) _ hpos (dvd_mul_right _ _)
  · -- minimality under no overflow
    intro hov
    have hx : (v + 2 ^ k - 1) % U32 = v + 2 ^ k - 1 := Nat.mod_eq_of_lt (by omega)
    rw [aligned_size_pow_two v hk, hx]
    exact roundup_is_least (2 ^ k) v hpos

/-- C4 counterexample: at `v = 2 ^ 32 - 1`, `a = 2` the wrapping `u32`
computation returns `0`, which is not a multiple of `2` that is `≥ v` —
the claim's universal minimality statement fails on overflow. -/
theorem aligned_size_overflow_cx :
    aligned_size (U32 - 1) 2 = 0 ∧ ¬ (U32 - 1 ≤ aligned_size (U32 - 1) 2) := by
  have h : aligned_size (U32 - 1) 2 = 0 := by rfl
  refine ⟨h, ?_⟩
  rw [h]
  norm_num [U32]

/-- The memory-type loop returns `0` (the fall-through value of the Rust
function) whenever no scanned index passes both tests.  The predicate is
expressed relative to the loop state: at state `(tb, i)` the `j`-th
remaining iteration sees `tb >>> j` and table index `i + j`. -/
theorem gmti_loop_no_match (types : List MemoryType) (props : Nat) :
    ∀ (count tb i : Nat),
      (∀ j, j < count →
        (((tb >>> j) &&& 1 == 1) &&
          ((types.getD (i + j) ⟨0⟩).property_flags &&& props == props)) = false) →
      get_memory_type_index_loop types props tb i count = 0 := by
  intro count
  induction count with
  | zero => intro tb i _h; rfl
  | succ n ih =>
    intro tb i h
    have h0 := h 0 (Nat.succ_pos n)
    rw [Nat.shiftRight_zero, Nat.add_zero] at h0
    simp only [get_memory_type_index_loop, h0, Bool.false_eq_true, if_false]
    apply ih
    intro j hj
    have hjj := h (j + 1) (Nat.succ_lt_succ hj)
    rw [Nat.add_comm j 1, Nat.shiftRight_add] at hjj
    rw [show i + (1 + j) = i + 1 + j by omega] at hjj
    exact hjj

/-- The memory-type loop returns the index of the first passing entry:
if iteration `j` passes and every earlier iteration fails, the loop
returns `i + j`. -/
theorem gmti_loop_first (types : List MemoryType) (props : Nat) :
    ∀ (count tb i j : Nat), j < count →
      (((tb >>> j) &&& 1 == 1) &&
        ((types.getD (i + j) ⟨0⟩).property_flags &&& props == props)) = true →
      (∀ m, m < j →
        (((tb >>> m) &&& 1 == 1) &&
          ((types.getD (i + m) ⟨0⟩).property_flags &&& props == props)) = false) →
      get_memory_type_index_loop types props tb i count = i + j := by
  intro count
  induction count with
  | zero => intro tb i j hj _ _; exact absurd hj (Nat.not_lt_zero j)
  | succ n ih =>
    intro tb i j hj hm hmin
    cases j with
    | zero =>
      rw [Nat.shiftRight_zero, Nat.add_zero] at hm
      simp only [get_memory_type_index_loop, hm, if_true]
      omega
    | succ m =>
      have h0 := hmin 0 (Nat.succ_pos m)
      rw [Nat.shiftRight_zero, Nat.add_zero] at h0
      simp only [get_memory_type_index_loop, h0, Bool.false_eq_true, if_false]
      have hm2 : (((tb >>> 1 >>> m) &&& 1 == 1) &&
          ((types.getD (i + 1 + m) ⟨0⟩).property_flags &&& props == props)) = true := by
        rw [← Nat.shiftRight_add, Nat.add_comm 1 m,
          show i + 1 + m = i + (m + 1) by omega]
        exact hm
      have hmin2 : ∀ p, p < m →
          (((tb >>> 1 >>> p) &&& 1 == 1) &&
            ((types.getD (i + 1 + p) ⟨0⟩).property_flags &&& props == props)) = false := by
        intro p hp
        have := hmin (p + 1) (Nat.succ_lt_succ hp)
        rw [Nat.add_comm p 1, Nat.shiftRight_add] at this
        rw [show i + (1 + p) = i + 1 + p by omega] at this
        exact this
      rw [ih (tb >>> 1) (i + 1) m (Nat.lt_of_succ_lt_succ hj) hm2 hmin2]
      omega

/-- C1 (amended): `get_memory_type_index` returns the lowest-indexed
memory type (within `memory_type_count`) whose bit is set in the bitmask
and whose property flags are a superset of the desired flags; when no type
matches it falls back to returning index `0` — an index that need not
itself satisfy either test — rather than signalling "none found". -/
theorem get_memory_type_index_spec (dmp : PhysicalDeviceMemoryProperties)
    (tb props i : Nat) :
    (i < dmp.memory_type_count → memory_type_matches dmp tb props i = true →
      (∀ j, j < i → memory_type_matches dmp tb props j = false) →
      get_memory_type_index dmp tb props = i)
    ∧ ((∀ j, j < dmp.memory_type_count → memory_type_matches dmp tb props j = false) →
      get_memory_type_index dmp tb props = 0) := by
  constructor
  · intro hi hm hmin
    have h := gmti_loop_first dmp.memory_types props dmp.memory_type_count tb 0 i hi
      (by rw [Nat.zero_add]; exact hm)
      (by intro m hm2; rw [Nat.zero_add]; exact hmin m hm2)
    rw [get_memory_type_index, h, Nat.zero_add]
  · intro hall
    exact gmti_loop_no_match dmp.memory_types props dmp.memory_type_count tb 0
      (by intro j hj; rw [Nat.zero_add]; exact hall j hj)

/-- Witness for C1 (amended): on a two-type table where only type `1`
matches bitmask `0b10` with desired flags `1`, the function returns `1`;
and on a one-type table where nothing matches, it returns the fallback `0`. -/
theorem get_memory_type_index_spec_witness :
    get_memory_type_index ⟨2, [⟨0⟩, ⟨3⟩]⟩ 2 1 = 1 ∧
      get_memory_type_index ⟨1, [⟨0⟩]⟩ 0 1 = 0 := by
  constructor
  · exact (get_memory_type_index_spec ⟨2, [⟨0⟩, ⟨3⟩]⟩ 2 1 1).1 (by decide) (by decide)
      (by decide)
  · exact (get_memory_type_index_spec ⟨1, [⟨0⟩]⟩ 0 1 0).2 (by decide)

/-- C1 counterexample: on a table whose single type `0` has empty property
flags, with bitmask `0` (no bit set) and desired flags `1`, no type
matches, yet the function returns index `0` — an index that fails both the
bit test and the flag test, refuting the claim that a "none found" outcome
is signalled and that no arbitrary unrelated index is ever returned. -/
theorem get_memory_type_index_no_match_cx :
    get_memory_type_index ⟨1, [⟨0⟩]⟩ 0 1 = 0 ∧
      memory_type_matches ⟨1, [⟨0⟩]⟩ 0 1 0 = false := by decide

/-- Witness for C4 at `v = 5`, `a = 4`: all hypotheses hold concretely and
the rounded value `aligned_size 5 4 = 8` is the least multiple of `4`
above `5` (checked against the bound `8`). -/
theorem aligned_size_idem_and_minimal_witness :
    aligned_size (aligned_size 5 4) 4 = aligned_size 5 4 ∧
      4 ∣ aligned_size 5 4 ∧ 5 ≤ aligned_size 5 4 ∧ aligned_size 5 4 ≤ 8 := by
  have h := aligned_size_idem_and_minimal 5 4 2 (by norm_num [U32]) rfl (by norm_num)
  have h2 := h.2 (by norm_num [U32])
  exact ⟨h.1, h2.1, h2.2.1, h2.2.2 8 (by norm_num) (by norm_num)⟩

/-- Embedding of `QueueFamilyIndices` (src/vulkan_base.rs:149-154): one
optional family index per category. -/
structure QueueFamilyIndices where
  graphics_family : Option Nat
  compute_family : Option Nat
  present_family : Option Nat
deriving DecidableEq

/-- Embedding of `QueueFamilyIndices::is_complete`
(src/vulkan_base.rs:160-165). -/
def QueueFamilyIndices.is_complete (q : QueueFamilyIndices)
    (need_compute need_present : Bool) : Bool :=
  q.graphics_family.isSome && (!need_compute || q.compute_family.isSome) &&
    (!need_present || q.present_family.isSome)

/-- Embedding of `QueueFamilyIndices::unique_families`
(src/vulkan_base.rs:168-184): push the graphics index, then the compute and
present indices only when not already in the vector. -/
def QueueFamilyIndices.unique_families (q : QueueFamilyIndices) : List Nat :=
  let families : List Nat := []
  let families := match q.graphics_family with
    | some g => families ++ [g]
    | none => families
  let families := match q.compute_family with
    | some c => if families.contains c then families else families ++ [c]
    | none => families
  let families := match q.present_family with
    | some p => if families.contains p then families else families ++ [p]
    | none => families
  families

/-- C7: for every combination of graphics/compute/present family indices —
equal, distinct, or partially unset — `unique_families` returns a list
without duplicates. -/
theorem unique_families_nodup (q : QueueFamilyIndices) : q.unique_families.Nodup := by
  rcases q with ⟨g, c, p⟩
  cases g <;> cases c <;> cases p <;>
    simp only [QueueFamilyIndices.unique_families] <;>
    (try split_ifs) <;>
    simp_all [List.Nodup, List.contains_eq_any_beq] <;>
    omega

/-- One entry of `get_physical_device_queue_family_properties`: the queue
count and the capability-flag bitmask of a queue family. -/
structure QueueFamilyProperties where
  queue_count : Nat
  queue_flags : Nat
deriving DecidableEq, Inhabited

/-- Bit value of `vk::QueueFlags::GRAPHICS`. -/
def QUEUE_GRAPHICS_BIT : Nat := 1

/-- Bit value of `vk::QueueFlags::COMPUTE`. -/
def QUEUE_COMPUTE_BIT : Nat := 2

/-- Embedding of `vk::QueueFlags::contains`: every bit of `bit` is set in
`flags`. -/
def flags_contains (flags bit : Nat) : Bool := flags &&& bit == bit

/-- Embedding of `Result::unwrap_or(false)` applied to a fallible
surface-support query (src/vulkan_base.rs:253-257). -/
def unwrap_or_false (r : Except Nat Bool) : Bool :=
  match r with
  | .ok b => b
  | .error _ => false

/-- Model of one physical device as the picker observes it:
`extension_names` is the outcome of `enumerate_device_extension_properties`
(`none` models that call failing), `queue_families` is the queue family
table, and `present_support` entry `i` is what
`get_physical_device_surface_support(device, i, surface)` returns for
family `i` (`Except.error` models a failed query). -/
structure PhysicalDeviceModel where
  extension_names : Option (List String)
  queue_families : List QueueFamilyProperties
  present_support : List (Except Nat Bool)

/-- Embedding of `iter().enumerate().find(...).map(|(i, _)| i)` over a
list: the index of the first element satisfying an index-aware predicate,
counting from `start`. -/
def findEnum {α : Type} (p : Nat → α → Bool) : Nat → List α → Option Nat
  | _, [] => none
  | i, x :: xs => if p i x then some i else findEnum p (i + 1) xs

/-- Predicate of the graphics-family search (src/vulkan_base.rs:220-227):
nonzero queue count and the GRAPHICS capability bit. -/
def graphics_family_pred (_i : Nat) (props : QueueFamilyProperties) : Bool :=
  decide (0 < props.queue_count) && flags_contains props.queue_flags QUEUE_GRAPHICS_BIT

/-- Predicate of the compute-family search (src/vulkan_base.rs:234-241). -/
def compute_family_pred (_i : Nat) (props : QueueFamilyProperties) : Bool :=
  decide (0 < props.queue_count) && flags_contains props.queue_flags QUEUE_COMPUTE_BIT

/-- Predicate of the present-family search (src/vulkan_base.rs:249-259):
the surface-support query for family `i`, with a query error collapsed to
`false` by `unwrap_or(false)`.  (The queue properties themselves are not
consulted.) -/
def present_family_pred (dev : PhysicalDeviceModel) (i : Nat)
    (_props : QueueFamilyProperties) : Bool :=
  unwrap_or_false (dev.present_support.getD i (.error 0))

/-- The per-device queue-family scan of
`pick_physical_device_and_queue_family_indices`
(src/vulkan_base.rs:217-263): start from the all-`none` default and fill
each category from the first matching family, compute only when
`need_compute`, present only when a surface (and its loader) was
supplied. -/
def find_queue_family_indices (dev : PhysicalDeviceModel)
    (need_compute has_surface : Bool) : QueueFamilyIndices :=
  { graphics_family := findEnum graphics_family_pred 0 dev.queue_families
    compute_family :=
      if need_compute then findEnum compute_family_pred 0 dev.queue_families else none
    present_family :=
      if has_surface then findEnum (present_family_pred dev) 0 dev.queue_families
      else none }

/-- The extension check of the picker (src/vulkan_base.rs:200-212): the
device passes iff the extension enumeration succeeded and every required
name is in the returned list (`... != Ok(true)` rejects the device both on
a missing name and on an enumeration error). -/
def device_supports_extensions (dev : PhysicalDeviceModel)
    (required : List String) : Bool :=
  match dev.extension_names with
  | none => false
  | some exts => required.all fun e => exts.contains e

/-- The per-device body of the picker's `find_map`
(src/vulkan_base.rs:198-270): reject on a failed extension check, scan the
queue families, and accept iff the resulting indices are complete for
`{need_compute, need_present}`. -/
def check_device (required : List String) (need_compute has_surface : Bool)
    (dev : PhysicalDeviceModel) : Option QueueFamilyIndices :=
  if device_supports_extensions dev required then
    let indices := find_queue_family_indices dev need_compute has_surface
    if indices.is_complete need_compute has_surface then some indices else none
  else none

/-- The `find_map` over the enumerated devices
(src/vulkan_base.rs:196-271): first device accepted by `check_device`, in
enumeration order. -/
def find_map_device (required : List String) (need_compute has_surface : Bool) :
    List PhysicalDeviceModel → Option (PhysicalDeviceModel × QueueFamilyIndices)
  | [] => none
  | d :: ds =>
    match check_device required need_compute has_surface d with
    | some indices => some (d, indices)
    | none => find_map_device required need_compute has_surface ds

/-- Embedding of `pick_physical_device_and_queue_family_indices`
(src/vulkan_base.rs:187-272).  `devices` is the outcome of
`enumerate_physical_devices` (its error propagates through the outer `?`);
`has_surface` models a supplied surface/loader pair, so `need_present =
surface.is_some()` is the same flag.  A `Ok none` result is the "no
suitable device" signal. -/
def pick_physical_device_and_queue_family_indices
    (devices : Except Nat (List PhysicalDeviceModel)) (required : List String)
    (need_compute has_surface : Bool) :
    Except Nat (Option (PhysicalDeviceModel × QueueFamilyIndices)) :=
  match devices with
  | .error e => .error e
  | .ok devs => .ok (find_map_device required need_compute has_surface devs)

/-- Elimination form for `findEnum`: a found index is in range (relative
to the start counter), satisfies the predicate, and every earlier counted
index fails it. -/
theorem findEnum_some {α : Type} (p : Nat → α → Bool) (d : α) :
    ∀ (l : List α) (start i : Nat), findEnum p start l = some i →
      start ≤ i ∧ i - start < l.length ∧ p i (l.getD (i - start) d) = true ∧
        ∀ j, start ≤ j → j < i → p j (l.getD (j - start) d) = false := by
  intro l
  induction l with
  | nil => intro start i h; exact absurd h (by simp [findEnum])
  | cons x xs ih =>
    intro start i h
    rw [findEnum] at h
    by_cases hp : p start x = true
    · simp only [hp, if_true] at h
      injection h with h
      subst h
      refine ⟨Nat.le_refl _, by simp, ?_, ?_⟩
      · rw [Nat.sub_self]
        simpa using hp
      · intro j hj1 hj2
        exact absurd (Nat.lt_of_le_of_lt hj1 hj2) (Nat.lt_irrefl _)
    · have hp2 : p start x = false := Bool.eq_false_iff.mpr hp
      simp only [hp2, Bool.false_eq_true, if_false] at h
      obtain ⟨h1, h2, h3, h4⟩ := ih (start + 1) i h
      refine ⟨by omega, by simp; omega, ?_, ?_⟩
      · rw [show i - start = (i - (start + 1)) + 1 by omega, List.getD_cons_succ]
        exact h3
      · intro j hj1 hj2
        rcases Nat.eq_or_lt_of_le hj1 with hj | hj
        · rw [← hj, Nat.sub_self, List.getD_cons_zero]
          exact hp2
        · rw [show j - start = (j - (start + 1)) + 1 by omega, List.getD_cons_succ]
          exact h4 j hj hj2

/-- Elimination form for `findEnum` returning `none`: every scanned index
fails the predicate. -/
theorem findEnum_none {α : Type} (p : Nat → α → Bool) (d : α) :
    ∀ (l : List α) (start : Nat), findEnum p start l = none →
      ∀ j, j < l.length → p (start + j) (l.getD j d) = false := by
  intro l
  induction l with
  | nil => intro start _ j hj; exact absurd hj (by simp)
  | cons x xs ih =>
    intro start h j hj
    rw [findEnum] at h
    by_cases hp : p start x = true
    · simp [hp] at h
    · have hp2 : p start x = false := Bool.eq_false_iff.mpr hp
      simp only [hp2, Bool.false_eq_true, if_false] at h
      cases j with
      | zero => rw [Nat.add_zero, List.getD_cons_zero]; exact hp2
      | succ m =>
        rw [List.getD_cons_succ, show start + (m + 1) = (start + 1) + m by omega]
        exact ih (start + 1) h m (by simpa using hj)

/-- Introduction form: if every scanned index fails the predicate,
`findEnum` returns `none`. -/
theorem findEnum_eq_none {α : Type} (p : Nat → α → Bool) :
    ∀ (l : List α) (start : Nat), (∀ i x, p i x = false) →
      findEnum p start l = none := by
  intro l
  induction l with
  | nil => intro start _; rfl
  | cons x xs ih =>
    intro start h
    rw [findEnum, h start x]
    simp only [Bool.false_eq_true, if_false]
    exact ih (start + 1) h

/-- `find_map_device` returns `none` exactly when every device is
rejected. -/
theorem find_map_device_none_iff (required : List String)
    (need_compute has_surface : Bool) :
    ∀ devs, find_map_device required need_compute has_surface devs = none ↔
      ∀ d ∈ devs, check_device required need_compute has_surface d = none := by
  intro devs
  induction devs with
  | nil => simp [find_map_device]
  | cons a ds ih =>
    rw [find_map_device]
    cases hc : check_device required need_compute has_surface a with
    | some idx => simp [hc]
    | none => simp [hc, ih]

/-- Elimination form for a successful pick: the returned device is the
first accepted one in enumeration order. -/
theorem find_map_device_some_spec (required : List String)
    (need_compute has_surface : Bool) :
    ∀ devs d idx,
      find_map_device required need_compute has_surface devs = some (d, idx) →
      ∃ n, ∃ hn : n < devs.length, devs.get ⟨n, hn⟩ = d ∧
        check_device required need_compute has_surface d = some idx ∧
        ∀ m (hm : m < devs.length), m < n →
          check_device required need_compute has_surface (devs.get ⟨m, hm⟩) = none := by
  intro devs
  induction devs with
  | nil => intro d idx h; exact absurd h (by simp [find_map_device])
  | cons a ds ih =>
    intro d idx h
    rw [find_map_device] at h
    cases hc : check_device required need_compute has_surface a with
    | some j =>
      rw [hc] at h
      injection h with h
      injection h with h1 h2
      subst h1
      subst h2
      refine ⟨0, by simp, rfl, hc, ?_⟩
      intro m hm hm0
      exact absurd hm0 (Nat.not_lt_zero m)
    | none =>
      rw [hc] at h
      obtain ⟨n, hn, hget, hcheck, hprev⟩ := ih d idx h
      refine ⟨n + 1, by simpa using Nat.succ_lt_succ hn, hget, hcheck, ?_⟩
      intro m hm hmn
      cases m with
      | zero => exact hc
      | succ m2 =>
        exact hprev m2 (by simpa using hm) (by omega)

/-- Helper: a list that does not hold `a` reports `contains a = false`. -/
theorem contains_eq_false_of_not_mem {α : Type} [BEq α] [LawfulBEq α]
    {l : List α} {a : α} (h : a ∉ l) : l.contains a = false := by
  rw [Bool.eq_false_iff]
  intro hc
  exact h (List.elem_iff.mp hc)

/-- Helper: an accepted device passed the extension check, its indices are
exactly the queue-family scan result, and those indices are complete. -/
theorem check_device_some (required : List String) (need_compute has_surface : Bool)
    (dev : PhysicalDeviceModel) (idx : QueueFamilyIndices)
    (h : check_device required need_compute has_surface dev = some idx) :
    device_supports_extensions dev required = true ∧
      idx = find_queue_family_indices dev need_compute has_surface ∧
      idx.is_complete need_compute has_surface = true := by
  rw [check_device] at h
  by_cases he : device_supports_extensions dev required = true
  · simp only [he, if_true] at h
    by_cases hcm : (find_queue_family_indices dev need_compute has_surface).is_complete
        need_compute has_surface = true
    · simp only [hcm, if_true] at h
      injection h with h
      exact ⟨he, h.symm, h ▸ hcm⟩
    · simp only [Bool.eq_false_iff.mpr hcm, Bool.false_eq_true, if_false] at h
      exact Option.noConfusion h
  · simp only [Bool.eq_false_iff.mpr he, Bool.false_eq_true, if_false] at h
    exact Option.noConfusion h

/-- Helper: `unwrap_or(false)` yields `true` only on a successful query
reporting support. -/
theorem unwrap_or_false_eq_true {r : Except Nat Bool}
    (h : unwrap_or_false r = true) : r = Except.ok true := by
  cases r with
  | ok b => cases b with
    | true => rfl
    | false => exact absurd h (by simp [unwrap_or_false])
  | error e => exact absurd h (by simp [unwrap_or_false])

/-- C6: the picker (1) rejects any device missing a required extension
name (also on a failed extension enumeration); (2) for an accepted device
fills each category — graphics, compute only when needed, present only
when a surface is supplied — with the first matching queue family in
family-enumeration order, and only accepts indices that are complete for
`{need_compute, has_surface}`; (3) returns the first accepted device in
device-enumeration order; and (4) returns the empty "no suitable device"
result when no device qualifies. -/
theorem pick_physical_device_spec (required : List String)
    (need_compute has_surface : Bool) :
    (∀ dev e, e ∈ required →
      (dev.extension_names = none ∨
        ∃ exts, dev.extension_names = some exts ∧ e ∉ exts) →
      check_device required need_compute has_surface dev = none)
    ∧
    (∀ dev idx, check_device required need_compute has_surface dev = some idx →
      idx.is_complete need_compute has_surface = true ∧
      (need_compute = false → idx.compute_family = none) ∧
      (has_surface = false → idx.present_family = none) ∧
      (∀ g, idx.graphics_family = some g →
        g < dev.queue_families.length ∧
        graphics_family_pred g (dev.queue_families.getD g default) = true ∧
        ∀ j, j < g → graphics_family_pred j (dev.queue_families.getD j default) = false) ∧
      (∀ c, idx.compute_family = some c →
        need_compute = true ∧ c < dev.queue_families.length ∧
        compute_family_pred c (dev.queue_families.getD c default) = true ∧
        ∀ j, j < c → compute_family_pred j (dev.queue_families.getD j default) = false) ∧
      (∀ q, idx.present_family = some q →
        has_surface = true ∧ q < dev.queue_families.length ∧
        present_family_pred dev q (dev.queue_families.getD q default) = true ∧
        ∀ j, j < q →
          present_family_pred dev j (dev.queue_families.getD j default) = false))
    ∧
    (∀ devs d idx,
      pick_physical_device_and_queue_family_indices (.ok devs) required
          need_compute has_surface = .ok (some (d, idx)) →
      ∃ n, ∃ hn : n < devs.length, devs.get ⟨n, hn⟩ = d ∧
        check_device required need_compute has_surface d = some idx ∧
        ∀ m (hm : m < devs.length), m < n →
          check_device required need_compute has_surface (devs.get ⟨m, hm⟩) = none)
    ∧
    (∀ devs, (∀ d ∈ devs, check_device required need_compute has_surface d = none) →
      pick_physical_device_and_queue_family_indices (.ok devs) required
          need_compute has_surface = .ok none) := by
  refine ⟨?_, ?_, ?_, ?_⟩
  · -- (1) extension rejection
    intro dev e he hmiss
    have hext : device_supports_extensions dev required = false := by
      rcases hmiss with hnone | ⟨exts, hsome, hnotmem⟩
      · rw [device_supports_extensions, hnone]
      · rw [device_supports_extensions, hsome]
        rw [Bool.eq_false_iff]
        intro hall
        rw [List.all_eq_true] at hall
        have := hall e he
        rw [contains_eq_false_of_not_mem hnotmem] at this
        exact absurd this (by simp)
    rw [check_device, hext]
    simp
  · -- (2) per-category first-match and completeness
    intro dev idx h
    obtain ⟨_hext, hidx, hcmpl⟩ := check_device_some required need_compute has_surface dev idx h
    subst hidx
    refine ⟨hcmpl, ?_, ?_, ?_, ?_, ?_⟩
    · intro hnc
      simp [find_queue_family_indices, hnc]
    · intro hhs
      simp [find_queue_family_indices, hhs]
    · intro g hg
      simp only [find_queue_family_indices] at hg
      obtain ⟨_, h2, h3, h4⟩ := findEnum_some graphics_family_pred default
        dev.queue_families 0 g hg
      rw [Nat.sub_zero] at h2 h3
      refine ⟨h2, h3, ?_⟩
      intro j hj
      have := h4 j (Nat.zero_le j) hj
      rwa [Nat.sub_zero] at this
    · intro c hc
      simp only [find_queue_family_indices] at hc
      cases hnc : need_compute with
      | false => rw [hnc] at hc; simp at hc
      | true =>
        rw [hnc] at hc
        rw [if_pos rfl] at hc
        obtain ⟨_, h2, h3, h4⟩ := findEnum_some compute_family_pred default
          dev.queue_families 0 c hc
        rw [Nat.sub_zero] at h2 h3
        refine ⟨rfl, h2, h3, ?_⟩
        intro j hj
        have := h4 j (Nat.zero_le j) hj
        rwa [Nat.sub_zero] at this
    · intro q hq
      simp only [find_queue_family_indices] at hq
      cases hhs : has_surface with
      | false => rw [hhs] at hq; simp at hq
      | true =>
        rw [hhs] at hq
        rw [if_pos rfl] at hq
        obtain ⟨_, h2, h3, h4⟩ := findEnum_some (present_family_pred dev) default
          dev.queue_families 0 q hq
        rw [Nat.sub_zero] at h2 h3
        refine ⟨rfl, h2, h3, ?_⟩
        intro j hj
        have := h4 j (Nat.zero_le j) hj
        rwa [Nat.sub_zero] at this
  · -- (3) first qualifying device in enumeration order
    intro devs d idx h
    rw [pick_physical_device_and_queue_family_indices] at h
    injection h with h
    exact find_map_device_some_spec required need_compute has_surface devs d idx h
  · -- (4) empty result when no device qualifies
    intro devs hall
    rw [pick_physical_device_and_queue_family_indices]
    rw [(find_map_device_none_iff required need_compute has_surface devs).mpr hall]

/-- Witness for C6: a device with an empty extension list is rejected when
the swapchain extension is required; a device offering one family with
graphics+compute flags and present support is accepted with all three
categories at family `0`, complete for `{need_compute, has_surface}`; and
an empty device list yields the "no suitable device" result. -/
theorem pick_physical_device_spec_witness :
    check_device ["VK_KHR_swapchain"] true true
        ⟨some [], [], []⟩ = none ∧
      (⟨some 0, some 0, some 0⟩ : QueueFamilyIndices).is_complete true true = true ∧
      check_device [] true true ⟨some [], [⟨1, 3⟩], [.ok true]⟩
        = some ⟨some 0, some 0, some 0⟩ ∧
      pick_physical_device_and_queue_family_indices (.ok []) [] true true = .ok none := by
  refine ⟨?_, ?_, ?_, ?_⟩
  · exact (pick_physical_device_spec ["VK_KHR_swapchain"] true true).1
      ⟨some [], [], []⟩ "VK_KHR_swapchain" (by simp) (Or.inr ⟨[], rfl, by simp⟩)
  · exact ((pick_physical_device_spec [] true true).2.1
      ⟨some [], [⟨1, 3⟩], [.ok true]⟩ ⟨some 0, some 0, some 0⟩ rfl).1
  · obtain ⟨n, hn, hget, hcheck, hprev⟩ := (pick_physical_device_spec [] true true).2.2.1
      [⟨some [], [⟨1, 3⟩], [.ok true]⟩] ⟨some [], [⟨1, 3⟩], [.ok true]⟩
      ⟨some 0, some 0, some 0⟩ rfl
    exact hcheck
  · exact (pick_physical_device_spec [] true true).2.2.2 []
      (by intro d hd; simp at hd)

/-- C10: in the present-family search a family whose surface-support query
fails is skipped — a found family always has a successful query reporting
support — and when every family's query errors the search finds nothing
and the device is merely rejected as unsuitable: the pick call still
completes with the "no suitable device" result, not an error. -/
theorem present_support_error_handling (required : List String) (need_compute : Bool) :
    (∀ dev i, findEnum (present_family_pred dev) 0 dev.queue_families = some i →
      dev.present_support.getD i (.error 0) = .ok true)
    ∧
    (∀ dev, (∀ r ∈ dev.present_support, ∃ e, r = Except.error e) →
      findEnum (present_family_pred dev) 0 dev.queue_families = none ∧
      check_device required need_compute true dev = none ∧
      pick_physical_device_and_queue_family_indices (.ok [dev]) required
        need_compute true = .ok none) := by
  constructor
  · intro dev i h
    obtain ⟨_, _, h3, _⟩ := findEnum_some (present_family_pred dev) default
      dev.queue_families 0 i h
    rw [present_family_pred] at h3
    exact unwrap_or_false_eq_true h3
  · intro dev hall
    have hpred : ∀ i x, present_family_pred dev i x = false := by
      intro i x
      rw [present_family_pred]
      cases hg : dev.present_support.getD i (.error 0) with
      | error e => rfl
      | ok b =>
        by_cases hi : i < dev.present_support.length
        · have hmem : dev.present_support.getD i (.error 0) ∈ dev.present_support := by
            rw [List.getD_eq_getElem _ _ hi]
            exact List.getElem_mem hi
          rw [hg] at hmem
          obtain ⟨e, he⟩ := hall _ hmem
          exact absurd he (by simp)
        · rw [List.getD_eq_default _ _ (Nat.le_of_not_lt hi)] at hg
          exact absurd hg (by simp)
    have hnone : findEnum (present_family_pred dev) 0 dev.queue_families = none :=
      findEnum_eq_none (present_family_pred dev) dev.queue_families 0 hpred
    have hpf : (find_queue_family_indices dev need_compute true).present_family = none := by
      simp [find_queue_family_indices, hnone]
    have hcmpl : (find_queue_family_indices dev need_compute true).is_complete
        need_compute true = false := by
      rw [QueueFamilyIndices.is_complete, hpf]
      simp
    have hcheck : check_device required need_compute true dev = none := by
      cases hext : device_supports_extensions dev required with
      | false => simp [check_device, hext]
      | true => simp [check_device, hext, hcmpl]
    refine ⟨hnone, hcheck, ?_⟩
    rw [pick_physical_device_and_queue_family_indices]
    simp [find_map_device, hcheck]

/-- Witness for C10: a device whose single family reports `Ok(true)` is
found at index `0` with the query outcome `Ok true`; a device whose single
family's query errors is rejected and the pick completes with the empty
result. -/
theorem present_support_error_handling_witness :
    (⟨none, [⟨1, 1⟩], [.ok true]⟩ : PhysicalDeviceModel).present_support.getD 0 (.error 0)
        = Except.ok true ∧
      pick_physical_device_and_queue_family_indices
        (.ok [⟨some [], [⟨1, 3⟩], [.error 5]⟩]) [] false true = .ok none := by
  constructor
  · exact (present_support_error_handling [] false).1 ⟨none, [⟨1, 1⟩], [.ok true]⟩ 0 rfl
  · exact ((present_support_error_handling [] false).2 ⟨some [], [⟨1, 3⟩], [.error 5]⟩
      (by intro r hr; simp at hr; exact ⟨5, hr⟩)).2.2

/-- Embedding of `vk::SurfaceFormatKHR`: numeric `format` and
`color_space` enumerant values. -/
structure SurfaceFormatKHR where
  format : Nat
  color_space : Nat
deriving DecidableEq, Inhabited

/-- Enumerant value of `vk::Format::B8G8R8A8_SRGB`. -/
def FORMAT_B8G8R8A8_SRGB : Nat := 50

/-- Enumerant value of `vk::ColorSpaceKHR::SRGB_NONLINEAR`. -/
def COLOR_SPACE_SRGB_NONLINEAR : Nat := 0

/-- The format predicate of `Swapchain::new` (src/windowed.rs:38-41):
8-bit BGRA sRGB with the sRGB-nonlinear color space. -/
def preferred_format_pred (f : SurfaceFormatKHR) : Bool :=
  f.format == FORMAT_B8G8R8A8_SRGB && f.color_space == COLOR_SPACE_SRGB_NONLINEAR

/-- The surface-format negotiation of `Swapchain::new`
(src/windowed.rs:32-42): error on an empty list (`none` models the early
return), else the first format matching the preference predicate, else the
first reported format (`find(..).unwrap_or(&surface_formats[0])`). -/
def choose_surface_format : List SurfaceFormatKHR → Option SurfaceFormatKHR
  | [] => none
  | f0 :: rest => some (((f0 :: rest).find? preferred_format_pred).getD f0)

/-- C8: for every non-empty surface-format list the negotiation returns a
format; it is the 8-bit BGRA sRGB + sRGB-nonlinear format whenever the
list contains one, and the first element of the list otherwise. -/
theorem choose_surface_format_spec (f0 : SurfaceFormatKHR)
    (rest : List SurfaceFormatKHR) :
    ∃ g, choose_surface_format (f0 :: rest) = some g ∧
      ((∃ f ∈ f0 :: rest, preferred_format_pred f = true) →
        g.format = FORMAT_B8G8R8A8_SRGB ∧
        g.color_space = COLOR_SPACE_SRGB_NONLINEAR ∧ g ∈ f0 :: rest) ∧
      ((∀ f ∈ f0 :: rest, preferred_format_pred f = false) → g = f0) := by
  cases hf : (f0 :: rest).find? preferred_format_pred with
  | some f =>
    refine ⟨f, by rw [choose_surface_format, hf]; rfl, ?_, ?_⟩
    · intro _
      have hp := List.find?_some hf
      rw [preferred_format_pred, Bool.and_eq_true, beq_iff_eq, beq_iff_eq] at hp
      exact ⟨hp.1, hp.2, List.mem_of_find?_eq_some hf⟩
    · intro hall
      have hp := List.find?_some hf
      have hmem := List.mem_of_find?_eq_some hf
      rw [hall f hmem] at hp
      exact absurd hp (by simp)
  | none =>
    refine ⟨f0, by rw [choose_surface_format, hf]; rfl, ?_, fun _ => rfl⟩
    intro ⟨f, hmem, hp⟩
    rw [List.find?_eq_none] at hf
    exact absurd hp (by simpa using hf f hmem)

/-- Witness for C8: a singleton list holding the preferred format yields
that format; a singleton list without it yields its first element. -/
theorem choose_surface_format_spec_witness :
    choose_surface_format [⟨50, 0⟩] = some ⟨50, 0⟩ ∧
      choose_surface_format [⟨44, 7⟩] = some ⟨44, 7⟩ := by
  constructor
  · obtain ⟨g, hg, h1, _⟩ := choose_surface_format_spec ⟨50, 0⟩ []
    obtain ⟨_, _, hmem⟩ := h1 ⟨⟨50, 0⟩, by simp, rfl⟩
    rw [List.mem_singleton] at hmem
    exact hmem ▸ hg
  · obtain ⟨g, hg, _, h2⟩ := choose_surface_format_spec ⟨44, 7⟩ []
    have hgf := h2 (by intro f hf; rw [List.mem_singleton] at hf; subst hf; rfl)
    exact hgf ▸ hg

/-- The fields of `vk::SurfaceCapabilitiesKHR` consulted by the
image-count negotiation. -/
structure SurfaceCapabilities where
  min_image_count : Nat
  max_image_count : Nat
deriving DecidableEq

/-- The image-count negotiation of `Swapchain::new` (src/windowed.rs:58-59):
`(min_image_count + 1).min(max_image_count.max(min_image_count + 1))`,
with the `u32` successor wrapping modulo `2 ^ 32`. -/
def swapchain_image_count (caps : SurfaceCapabilities) : Nat :=
  Nat.min ((caps.min_image_count + 1) % U32)
    (Nat.max caps.max_image_count ((caps.min_image_count + 1) % U32))

/-- C9: for every surface capability report (whose `min_image_count + 1`
does not overflow `u32`), the chosen swapchain image count equals
`min_image_count + 1` and never exceeds
`max(max_image_count, min_image_count + 1)`; in particular a surface
reporting the unlimited maximum `max_image_count = 0` still yields
`min_image_count + 1`. -/
theorem swapchain_image_count_spec (caps : SurfaceCapabilities)
    (h : caps.min_image_count + 1 < U32) :
    swapchain_image_count caps = caps.min_image_count + 1 ∧
      swapchain_image_count caps ≤
        Nat.max caps.max_image_count (caps.min_image_count + 1) ∧
      (caps.max_image_count = 0 →
        swapchain_image_count caps = caps.min_image_count + 1) := by
  have hm : (caps.min_image_count + 1) % U32 = caps.min_image_count + 1 :=
    Nat.mod_eq_of_lt h
  rw [swapchain_image_count, hm]
  exact ⟨Nat.min_eq_left (Nat.le_max_right _ _), Nat.min_le_right _ _,
    fun _ => Nat.min_eq_left (Nat.le_max_right _ _)⟩

/-- Witness for C9 at `min_image_count = 2`, `max_image_count = 3`: the
chosen count is `3` and stays within the clamp bound. -/
theorem swapchain_image_count_spec_witness :
    swapchain_image_count ⟨2, 3⟩ = 3 ∧
      swapchain_image_count ⟨2, 3⟩ ≤ Nat.max 3 3 := by
  have h := swapchain_image_count_spec ⟨2, 3⟩ (by norm_num [U32])
  exact ⟨h.1, h.2.1⟩

/-- Embedding of `BufferResource` (src/buffer.rs:4-9): the originally
requested logical `size` and the bytes of the backing memory block (whose
length is the allocation size reported by the memory requirements, which
may exceed `size`). -/
structure BufferResource where
  size : Nat
  memory : List Nat
deriving DecidableEq

/-- Byte stride between consecutive elements as `ash::util::Align`
computes it: the element size rounded up to the element alignment. -/
def align_stride (elem_size alignment : Nat) : Nat :=
  ((elem_size + alignment - 1) / alignment) * alignment

/-- Raw copy of one element's `bytes` into `mem` at byte offset `off`. -/
def write_bytes (mem : List Nat) (off : Nat) (bytes : List Nat) : List Nat :=
  mem.take off ++ bytes ++ mem.drop (off + bytes.length)

/-- Embedding of `ash::util::Align::copy_from_slice`: element `j` of
`data` is copied to byte offset `j * stride`. -/
def align_copy (stride : Nat) : List Nat → Nat → List (List Nat) → List Nat
  | mem, _, [] => mem
  | mem, off, e :: es => align_copy stride (write_bytes mem off e) (off + stride) es

/-- Embedding of `BufferResource::store` (src/buffer.rs:61-70) for a
payload of `data.length` elements of `elem_size` bytes each with element
alignment `alignment` (in Rust, `size_of::<T>()` and `align_of::<T>()`):
`none` models the `assert!(self.size >= size)` panic; otherwise the whole
range is mapped, the payload copied through `Align` starting at offset
`0`, and the memory unmapped. -/
def BufferResource.store (buf : BufferResource) (elem_size alignment : Nat)
    (data : List (List Nat)) : Option BufferResource :=
  let size := elem_size * data.length
  if buf.size < size then none
  else some { buf with
    memory := align_copy (align_stride elem_size alignment) buf.memory 0 data }

/-- Helper: a bounded element copy preserves the memory length. -/
theorem write_bytes_length (mem : List Nat) (off : Nat) (bytes : List Nat)
    (h : off + bytes.length ≤ mem.length) :
    (write_bytes mem off bytes).length = mem.length := by
  rw [write_bytes]
  simp only [List.length_append, List.length_take, List.length_drop]
  omega

/-- Helper: when every element has exactly `stride` bytes and the copy
fits in the memory block, `align_copy` overwrites the byte range starting
at `off` with the concatenated payload and touches nothing else. -/
theorem align_copy_eq (s : Nat) :
    ∀ (data : List (List Nat)) (mem : List Nat) (off : Nat),
      (∀ e ∈ data, e.length = s) →
      off + s * data.length ≤ mem.length →
      align_copy s mem off data =
        mem.take off ++ data.flatten ++ mem.drop (off + s * data.length) := by
  intro data
  induction data with
  | nil =>
    intro mem off _ _
    simp [align_copy, List.take_append_drop]
  | cons e es ih =>
    intro mem off h hfit
    have he : e.length = s := h e (List.mem_cons_self e es)
    have hmul : s * (es.length + 1) = s * es.length + s := by rw [Nat.mul_succ]
    have hoffs : off + s ≤ mem.length := by
      simp only [List.length_cons] at hfit
      omega
    have hw : write_bytes mem off e = (mem.take off ++ e) ++ mem.drop (off + s) := by
      rw [write_bytes, he, List.append_assoc]
    have hwlen : (write_bytes mem off e).length = mem.length :=
      write_bytes_length mem off e (by omega)
    have htakelen : (mem.take off ++ e).length = off + s := by
      simp only [List.length_append, List.length_take]
      omega
    rw [align_copy, ih (write_bytes mem off e) (off + s)
      (fun x hx => h x (List.mem_cons_of_mem e hx))
      (by rw [hwlen]; simp only [List.length_cons] at hfit; omega)]
    rw [hw, List.take_left' htakelen]
    have hdrop : List.drop (off + s + s * es.length)
        ((mem.take off ++ e) ++ mem.drop (off + s)) =
        mem.drop (off + s + s * es.length) := by
      rw [List.drop_append_eq_append_drop,
        List.drop_eq_nil_of_le (by rw [htakelen]; omega), htakelen, List.nil_append,
        List.drop_drop]
      congr 1
      omega
    rw [hdrop, List.flatten_cons]
    have hidx : off + s * (e :: es).length = off + s + s * es.length := by
      simp only [List.length_cons]
      omega
    rw [hidx]
    simp [List.append_assoc]

/-- Helper: the concatenation of `n` elements of `s` bytes each has
`s * n` bytes. -/
theorem flatten_length_uniform (s : Nat) :
    ∀ (data : List (List Nat)), (∀ e ∈ data, e.length = s) →
      data.flatten.length = s * data.length := by
  intro data
  induction data with
  | nil => intro _; simp
  | cons e es ih =>
    intro h
    have he : e.length = s := h e (List.mem_cons_self e es)
    have ihs := ih fun x hx => h x (List.mem_cons_of_mem e hx)
    simp only [List.flatten_cons, List.length_append, List.length_cons, he, ihs,
      Nat.mul_succ]
    omega

/-- Helper: for a Rust type, the alignment divides the size, which makes
the `Align` stride equal to the element size (a contiguous copy). -/
theorem align_stride_of_dvd {elem_size alignment : Nat} (hpos : 0 < alignment)
    (hdvd : alignment ∣ elem_size) : align_stride elem_size alignment = elem_size := by
  rw [align_stride, Nat.mul_comm]
  exact roundup_of_multiple alignment elem_size hpos hdvd

/-- C5: storing a payload whose byte length is at most the buffer's
logical size and reading the mapped memory back yields exactly the
payload's bytes (sizes unchanged); an over-sized payload trips the
assertion (modelled as `none`) instead of returning an error value.  The
divisibility hypothesis is the Rust guarantee that a type's size is a
multiple of its alignment. -/
theorem store_roundtrip_and_assert (buf : BufferResource) (elem_size alignment : Nat)
    (data : List (List Nat)) :
    (0 < alignment → alignment ∣ elem_size →
      (∀ e ∈ data, e.length = elem_size) →
      elem_size * data.length ≤ buf.size →
      buf.size ≤ buf.memory.length →
      ∃ buf2, buf.store elem_size alignment data = some buf2 ∧
        buf2.memory.take (elem_size * data.length) = data.flatten ∧
        buf2.size = buf.size ∧ buf2.memory.length = buf.memory.length)
    ∧ (buf.size < elem_size * data.length →
        buf.store elem_size alignment data = none) := by
  constructor
  · intro hpos hdvd hlen hfit halloc
    rw [BufferResource.store]
    have hno : ¬ buf.size < elem_size * data.length := by omega
    simp only [hno, if_false]
    have hstride := align_stride_of_dvd hpos hdvd
    rw [hstride]
    have hcopy := align_copy_eq elem_size data buf.memory 0 hlen (by omega)
    rw [Nat.zero_add, List.take_zero, List.nil_append] at hcopy
    rw [hcopy]
    have hfl : data.flatten.length = elem_size * data.length :=
      flatten_length_uniform elem_size data hlen
    refine ⟨_, rfl, ?_, rfl, ?_⟩
    · rw [List.take_left' hfl]
    · simp only [List.length_append, List.length_drop, hfl]
      omega
  · intro h
    rw [BufferResource.store]
    simp [h]

/-- Witness for C5: a buffer of logical size `4` over a 5-byte allocation
stores the two 2-byte elements `[1,2]`, `[3,4]` and reads back exactly
`[1,2,3,4]`; a buffer of logical size `1` rejects the same payload via
the assertion. -/
theorem store_roundtrip_and_assert_witness :
    (BufferResource.store ⟨4, [9, 9, 9, 9, 9]⟩ 2 1 [[1, 2], [3, 4]]).map
        (fun b => b.memory.take 4) = some [1, 2, 3, 4] ∧
      BufferResource.store ⟨1, []⟩ 2 1 [[1, 2]] = none := by
  constructor
  · obtain ⟨buf2, hst, htake, _, _⟩ :=
      (store_roundtrip_and_assert ⟨4, [9, 9, 9, 9, 9]⟩ 2 1 [[1, 2], [3, 4]]).1
        (by decide) (by decide) (by decide) (by decide) (by decide)
    rw [hst]
    simpa using htake
  · exact (store_roundtrip_and_assert ⟨1, []⟩ 2 1 [[1, 2]]).2 (by decide)

/-- Handles the device calls of this layer can create; used to track
which resources are live (created and not destroyed) when a call stops. -/
inductive VkHandle where
  | image (h : Nat)
  | memory (h : Nat)
  | view (h : Nat)
deriving DecidableEq

/-- Embedding of `RenderTargetImage` (src/image_utils.rs:8-12). -/
structure RenderTargetImage where
  image : Nat
  memory : Nat
  view : Nat
deriving DecidableEq

/-- Outcomes of the four fallible device calls `RenderTargetImage::new`
performs, in program order; error payloads model `vk::Result` codes,
success payloads the created handles. -/
structure RenderTargetCallOutcomes where
  create_image : Except Nat Nat
  allocate_memory : Except Nat Nat
  bind_image_memory : Except Nat Unit
  create_image_view : Except Nat Nat

/-- Embedding of `RenderTargetImage::new` (src/image_utils.rs:15-67) with
explicit tracking of the handles each successful stage creates.  Each
`Except.error` arm is one of the `?` early returns of the Rust function;
the function contains no destroy call, so on an early return every handle
created by an earlier stage stays live. -/
def RenderTargetImage.new (d : RenderTargetCallOutcomes) :
    Except Nat RenderTargetImage × List VkHandle :=
  match d.create_image with
  | .error e => (.error e, [])
  | .ok img =>
    match d.allocate_memory with
    | .error e => (.error e, [.image img])
    | .ok mem =>
      match d.bind_image_memory with
      | .error e => (.error e, [.image img, .memory mem])
      | .ok _ =>
        match d.create_image_view with
        | .error e => (.error e, [.image img, .memory mem])
        | .ok v => (.ok ⟨img, mem, v⟩, [.image img, .memory mem, .view v])

/-- C2 counterexample: when image creation, memory allocation and binding
succeed but view creation fails (code `7`), the call returns the error
while the image and memory handles remain live — the partial creation is
not rolled back. -/
theorem render_target_new_leak_cx :
    (RenderTargetImage.new ⟨.ok 1, .ok 2, .ok (), .error 7⟩).1 = .error 7 ∧
      (RenderTargetImage.new ⟨.ok 1, .ok 2, .ok (), .error 7⟩).2 =
        [.image 1, .memory 2] ∧
      (RenderTargetImage.new ⟨.ok 1, .ok 2, .ok (), .error 7⟩).2 ≠ [] := by
  refine ⟨rfl, rfl, by decide⟩

/-- C2 (amended): each of the four failure points propagates the failing
call's raw error code, but nothing is rolled back: an allocation failure
leaves the image live, a bind or view-creation failure leaves the image
and the memory live; the returned error is only the `vk::Result` code and
does not identify the failing stage.  On full success all three handles
are live and returned. -/
theorem render_target_new_spec (d : RenderTargetCallOutcomes) :
    (∀ e, d.create_image = .error e →
      RenderTargetImage.new d = (.error e, []))
    ∧ (∀ img e, d.create_image = .ok img → d.allocate_memory = .error e →
        RenderTargetImage.new d = (.error e, [.image img]))
    ∧ (∀ img mem e, d.create_image = .ok img → d.allocate_memory = .ok mem →
        d.bind_image_memory = .error e →
        RenderTargetImage.new d = (.error e, [.image img, .memory mem]))
    ∧ (∀ img mem e, d.create_image = .ok img → d.allocate_memory = .ok mem →
        d.bind_image_memory = .ok () → d.create_image_view = .error e →
        RenderTargetImage.new d = (.error e, [.image img, .memory mem]))
    ∧ (∀ img mem v, d.create_image = .ok img → d.allocate_memory = .ok mem →
        d.bind_image_memory = .ok () → d.create_image_view = .ok v →
        RenderTargetImage.new d =
          (.ok ⟨img, mem, v⟩, [.image img, .memory mem, .view v])) := by
  refine ⟨?_, ?_, ?_, ?_, ?_⟩
  · intro e h1
    simp [RenderTargetImage.new, h1]
  · intro img e h1 h2
    simp [RenderTargetImage.new, h1, h2]
  · intro img mem e h1 h2 h3
    simp [RenderTargetImage.new, h1, h2, h3]
  · intro img mem e h1 h2 h3 h4
    simp [RenderTargetImage.new, h1, h2, h3, h4]
  · intro img mem v h1 h2 h3 h4
    simp [RenderTargetImage.new, h1, h2, h3, h4]

/-- Witness for C2 (amended): each stage outcome evaluated on concrete
call results, covering all four failure points and the success path. -/
theorem render_target_new_spec_witness :
    RenderTargetImage.new ⟨.error 3, .ok 2, .ok (), .ok 4⟩ = (.error 3, []) ∧
      RenderTargetImage.new ⟨.ok 1, .error 4, .ok (), .ok 4⟩
        = (.error 4, [.image 1]) ∧
      RenderTargetImage.new ⟨.ok 1, .ok 2, .error 5, .ok 4⟩
        = (.error 5, [.image 1, .memory 2]) ∧
      RenderTargetImage.new ⟨.ok 8, .ok 9, .ok (), .error 6⟩
        = (.error 6, [.image 8, .memory 9]) ∧
      RenderTargetImage.new ⟨.ok 1, .ok 2, .ok (), .ok 4⟩
        = (.ok ⟨1, 2, 4⟩, [.image 1, .memory 2, .view 4]) := by
  refine ⟨?_, ?_, ?_, ?_, ?_⟩
  · exact (render_target_new_spec _).1 3 rfl
  · exact (render_target_new_spec _).2.1 1 4 rfl rfl
  · exact (render_target_new_spec _).2.2.1 1 2 5 rfl rfl rfl
  · exact (render_target_new_spec _).2.2.2.1 8 9 6 rfl rfl rfl rfl
  · exact (render_target_new_spec _).2.2.2.2 1 2 4 rfl rfl rfl rfl

/-- State after running `save_image_to_png`: the outcome (`Except.error`
models a panic of one of the `unwrap` calls on the PNG encoder) and
whether the staging memory is still mapped when the function stops. -/
structure SaveImageResult where
  outcome : Except Nat Unit
  memory_mapped : Bool

/-- All `png_writer.write_all(row).unwrap()` calls of the reversed-row
loop succeed (the loop stops at the first failing write, which panics). -/
def all_writes_ok : List Bool → Bool
  | [] => true
  | w :: ws => if w then all_writes_ok ws else false

/-- Embedding of the control flow of `save_image_to_png`
(src/image_utils.rs:296-365), abstracted over the encoder behaviour:
`writes` lists the success of each `png_writer.write_all(row)` call in
execution order and `finish_ok` the success of `png_writer.finish()`.
After `map_memory(...).unwrap()` establishes the mapping, the function
reaches `device.unmap_memory` only after every encoder call succeeded; a
failing `write_all` (error `0`) or `finish` (error `1`) panics through
`unwrap` first, leaving the mapping standing. -/
def save_image_to_png (writes : List Bool) (finish_ok : Bool) : SaveImageResult :=
  if all_writes_ok writes then
    if finish_ok then
      { outcome := .ok (), memory_mapped := false }
    else
      { outcome := .error 1, memory_mapped := true }
  else
    { outcome := .error 0, memory_mapped := true }

/-- C3 counterexample: with a single failing encoder write the function
panics with the staging memory still mapped — the mapping is not torn
down "regardless of encoder outcome". -/
theorem save_image_to_png_leak_cx :
    (save_image_to_png [false] true).memory_mapped = true ∧
      (save_image_to_png [false] true).outcome = .error 0 := ⟨rfl, rfl⟩

/-- C3 (amended): `save_image_to_png` unmaps the staging memory exactly
when every encoder write and the final `finish` succeed; on any encoder
failure the `unwrap` panic occurs before `unmap_memory`, so the mapping
stays standing. -/
theorem save_image_to_png_unmap_spec (writes : List Bool) (finish_ok : Bool) :
    (save_image_to_png writes finish_ok).memory_mapped = false ↔
      (all_writes_ok writes = true ∧ finish_ok = true) := by
  rw [save_image_to_png]
  by_cases hw : all_writes_ok writes = true <;> by_cases hf : finish_ok = true <;>
    simp [hw, hf]

end VkModel
